import Mathlib

/-!
Verification of the Day 17 "Chronospatial Computer" register-machine
interpreter (`aoc::day17`): a shallow embedding of the computer state,
the fetch-decode-execute step, the run-to-halt loop, and the textual
input parser, together with theorems settling the specified properties.

Registers are modelled as unbounded `Int` (the C++ code uses `int64_t`;
none of the executed operations — arithmetic right shift, xor, modulo 8 —
can grow a value's magnitude, so no 64-bit wrapping is ever exercised
and the unbounded model agrees with the machine semantics).
The instruction pointer (`size_t` in C++) is a `Nat`.
-/

namespace AoC.Day17

/-- Truncating remainder as computed by the C++ `%` operator on signed
integers: the result has the sign of the dividend and magnitude
`|a| % |b|`.  Used with divisor 8 by the `bst` and `out` instructions. -/
def cppMod (a b : Int) : Int :=
  if 0 ≤ a then ((a.natAbs % b.natAbs : Nat) : Int)
  else -((a.natAbs % b.natAbs : Nat) : Int)

/-- Arithmetic right shift as performed by C++ `>>` on a signed 64-bit
value: for a nonnegative shift count this is floor division by `2 ^ k`
(C++ defines it for counts in `[0, 64)`; the model extends the same
mathematical value to larger counts).  A negative shift count is
undefined behaviour in C++; the model leaves the value unchanged there. -/
def cppShr (a k : Int) : Int :=
  if 0 ≤ k then Int.fdiv a ((2 : Int) ^ k.toNat) else a

/-- Conversion of an `int` operand to `size_t`, as performed by
`static_cast<size_t>(operand)` in the jump instruction: reduction
modulo `2 ^ 64`. -/
def usizeCast (x : Int) : Nat := (x % (2 : Int) ^ 64).toNat

/-- Register file and instruction pointer (struct `ComputerState`). -/
structure ComputerState where
  A : Int
  B : Int
  C : Int
  instructionPointer : Nat
  deriving DecidableEq

/-- Program: flat list of instruction values (struct `Program`,
`std::vector<int> instructions`). -/
structure Program where
  instructions : List Int
  deriving DecidableEq

/-- Interpreter: program, current state and collected output
(class `Computer` with members `program_`, `state_`, `output_`). -/
structure Computer where
  program_ : Program
  state_ : ComputerState
  output_ : List Int
  deriving DecidableEq

/-- Failure of a single step: `vector::at` on index `pointer + 1` is out
of range, i.e. the program ends in an opcode with no operand
(the spec's `TruncatedProgram`). -/
inductive RunError where
  | TruncatedProgram
  deriving DecidableEq

instance : DecidableEq (Except RunError Computer) := fun a b =>
  match a, b with
  | .ok x, .ok y =>
    if h : x = y then .isTrue (by rw [h]) else .isFalse (by simp [h])
  | .error .TruncatedProgram, .error .TruncatedProgram => .isTrue rfl
  | .ok _, .error _ => .isFalse (by simp)
  | .error _, .ok _ => .isFalse (by simp)

/-- Constructor `Computer::Computer(program, A, B, C)`: pointer 0,
empty output. -/
def Computer.init (program : Program) (A B C : Int) : Computer :=
  { program_ := program, state_ := ⟨A, B, C, 0⟩, output_ := [] }

/-- Member `Computer::resolveCombo`: operands 0-3 denote themselves,
4-6 the registers A, B, C; anything else yields 0. -/
def Computer.resolveCombo (c : Computer) (operand : Int) : Int :=
  if operand = 0 ∨ operand = 1 ∨ operand = 2 ∨ operand = 3 then operand
  else if operand = 4 then c.state_.A
  else if operand = 5 then c.state_.B
  else if operand = 6 then c.state_.C
  else 0

/-- Member `Computer::isHalted`: pointer at or past the end of the
program. -/
def Computer.isHalted (c : Computer) : Bool :=
  c.program_.instructions.length ≤ c.state_.instructionPointer

/-- Member `Computer::executeInstruction`.  A halted machine is left
unchanged.  Otherwise the opcode and operand are fetched with
`vector::at`; a missing operand (only possible when the pointer sits on
the last element) raises `TruncatedProgram`, modelling the
`std::out_of_range` exception.  The dispatch mirrors the C++ `switch`
case by case, including the final pointer advance by 2 for every
instruction except a taken jump. -/
def Computer.executeInstruction (c : Computer) : Except RunError Computer :=
  if c.isHalted then .ok c
  else
    match c.program_.instructions[c.state_.instructionPointer]?,
          c.program_.instructions[c.state_.instructionPointer + 1]? with
    | some opcode, some operand =>
      let st := c.state_
      if opcode = 0 then -- adv
        .ok { c with state_ := { st with A := cppShr st.A (c.resolveCombo operand),
                                         instructionPointer := st.instructionPointer + 2 } }
      else if opcode = 1 then -- bxl
        .ok { c with state_ := { st with B := Int.xor st.B operand,
                                         instructionPointer := st.instructionPointer + 2 } }
      else if opcode = 2 then -- bst
        .ok { c with state_ := { st with B := cppMod (c.resolveCombo operand) 8,
                                         instructionPointer := st.instructionPointer + 2 } }
      else if opcode = 3 then -- jnz
        if st.A ≠ 0 then
          .ok { c with state_ := { st with instructionPointer := usizeCast operand } }
        else
          .ok { c with state_ := { st with instructionPointer := st.instructionPointer + 2 } }
      else if opcode = 4 then -- bxc
        .ok { c with state_ := { st with B := Int.xor st.B st.C,
                                         instructionPointer := st.instructionPointer + 2 } }
      else if opcode = 5 then -- out
        .ok { c with output_ := c.output_ ++ [cppMod (c.resolveCombo operand) 8],
                     state_ := { st with instructionPointer := st.instructionPointer + 2 } }
      else if opcode = 6 then -- bdv
        .ok { c with state_ := { st with B := cppShr st.A (c.resolveCombo operand),
                                         instructionPointer := st.instructionPointer + 2 } }
      else if opcode = 7 then -- cdv
        .ok { c with state_ := { st with C := cppShr st.A (c.resolveCombo operand),
                                         instructionPointer := st.instructionPointer + 2 } }
      else -- default: no effect beyond the pointer advance
        .ok { c with state_ := { st with instructionPointer := st.instructionPointer + 2 } }
    | _, _ => .error RunError.TruncatedProgram

/-- Iterated stepping: `n` invocations of `executeInstruction`,
propagating a failure. -/
def Computer.stepN (c : Computer) : Nat → Except RunError Computer
  | 0 => .ok c
  | n + 1 =>
    match c.executeInstruction with
    | .ok c' => c'.stepN n
    | .error e => .error e

/-- Big-step semantics of `Computer::run` (`while (!isHalted())
executeInstruction();`): the machine reaches the halted configuration
`c'` after finitely many steps.  `run()` terminates on `c` exactly when
some `c'` with `RunsTo c c'` exists, and `c'` is then the configuration
it leaves behind. -/
def RunsTo (c c' : Computer) : Prop :=
  ∃ n, c.stepN n = .ok c' ∧ c'.isHalted = true

example : (Computer.init ⟨[2, 6]⟩ 0 0 9).stepN 1 =
    .ok ⟨⟨[2, 6]⟩, ⟨0, 1, 9, 2⟩, []⟩ := by decide

example : (Computer.init ⟨[5, 4]⟩ (-9) 0 0).stepN 1 =
    .ok ⟨⟨[5, 4]⟩, ⟨-9, 0, 0, 2⟩, [-1]⟩ := by decide

/-! ## Parsing (`aoc::day17::parseInput`)

Input lines are byte strings; the model works on `List Char` (all
relevant input is ASCII, where C++ bytes and characters coincide). -/

/-- Line of textual input. -/
abbrev Line := List Char

/-- Whitespace in the default C locale, as accepted by `isspace` and
hence skipped by `std::stoll` before the number. -/
def cppIsSpace (c : Char) : Bool :=
  c = ' ' || c = '\t' || c = '\n' || c = '\x0b' || c = '\x0c' || c = '\r'

/-- Value of the longest digit run at the front of `s`; `none` when
there is no leading digit. -/
def leadingDigits (s : Line) : Option Nat :=
  let ds := s.takeWhile Char.isDigit
  if ds.isEmpty then none
  else some (ds.foldl (fun a c => 10 * a + (c.toNat - 48)) 0)

/-- Model of `std::stoll` (and `std::stoi`; the int range is not
exercised): skip whitespace, accept an optional sign, then require at
least one digit, ignoring whatever follows the digit run.  `none`
models the `std::invalid_argument` exception thrown when no digits are
found. -/
def stoll (s : Line) : Option Int :=
  let s' := s.dropWhile cppIsSpace
  if s'.head? = some '-' then (leadingDigits s'.tail).map fun n => -(n : Int)
  else if s'.head? = some '+' then (leadingDigits s'.tail).map fun n => (n : Int)
  else (leadingDigits s').map fun n => (n : Int)

/-- Tokens produced by the `while (std::getline(ss, token, ','))` loop:
the empty string yields no token at all, and a trailing separator does
not yield a trailing empty token (the stream is at end-of-file after
consuming it). -/
def getlineTokens (sep : Char) : Line → List Line
  | [] => []
  | c :: cs =>
    if c = sep then [] :: getlineTokens sep cs
    else
      match getlineTokens sep cs with
      | [] => [[c]]
      | t :: ts => (c :: t) :: ts

/-- Result of parsing (struct `ParsedInput`).  In the C++ struct the
three register members carry no initializers, so a field never assigned
by `parseInput` keeps whatever value the object started with. -/
structure ParsedInput where
  A : Int
  B : Int
  C : Int
  program : List Int
  deriving DecidableEq

/-- Effect of one iteration of the loop body of `parseInput` on the
accumulated result: the four prefix tests in order, each register line
parsed with `stoll` from offset 11, the program line split on commas
from offset 9 with each token parsed by `stoi`, and any other line
ignored.  `none` models an exception escaping the loop (a failed
numeric conversion, or `substr(9)` on a line of fewer than 9
characters). -/
def parseLine (r : ParsedInput) (line : Line) : Option ParsedInput :=
  if ("Register A:".toList).isPrefixOf line then
    (stoll (line.drop 11)).map fun v => { r with A := v }
  else if ("Register B:".toList).isPrefixOf line then
    (stoll (line.drop 11)).map fun v => { r with B := v }
  else if ("Register C:".toList).isPrefixOf line then
    (stoll (line.drop 11)).map fun v => { r with C := v }
  else if ("Program:".toList).isPrefixOf line then
    if line.length < 9 then none
    else
      ((getlineTokens ',' (line.drop 9)).foldlM
        (fun p tok => (stoll tok).map fun v => p ++ [v]) r.program).map
        fun p => { r with program := p }
  else some r

/-- Function `parseInput`, starting from an explicit initial record
(standing for the indeterminate values of the uninitialised C++
members). -/
def parseInputFrom (r₀ : ParsedInput) (input : List Line) : Option ParsedInput :=
  input.foldlM parseLine r₀

/-- Function `parseInput` as invoked in the repository, with the
initial record taken as all-zero / empty (the C++ members are
indeterminate; the parse never writes a register its input lacks,
whatever the initial values, so any choice here is equally faithful
for inputs that name all three registers). -/
def parseInput (input : List Line) : Option ParsedInput :=
  parseInputFrom ⟨0, 0, 0, []⟩ input

example : parseInput ["Register A: 729".toList, "Register B: 3".toList,
    "Register C: 11".toList, "Program: 0,1,5,4,3,0".toList] =
    some ⟨729, 3, 11, [0, 1, 5, 4, 3, 0]⟩ := by decide

example : parseInput [" Register B:1".toList] = some ⟨0, 0, 0, []⟩ := by decide

example : parseInput ["Register B:  -42".toList] = some ⟨0, -42, 0, []⟩ := by decide

/-! ## Helper lemmas about the machine -/

theorem executeInstruction_of_isHalted (c : Computer) (h : c.isHalted = true) :
    c.executeInstruction = .ok c := by
  simp [Computer.executeInstruction, h]

theorem stepN_of_isHalted (c : Computer) (h : c.isHalted = true) :
    ∀ n, c.stepN n = .ok c := by
  intro n
  induction n with
  | zero => rfl
  | succ n ih => simp [Computer.stepN, executeInstruction_of_isHalted c h, ih]

theorem stepN_add (m n : Nat) : ∀ c : Computer,
    c.stepN (m + n) =
      match c.stepN m with
      | .ok c' => c'.stepN n
      | .error e => .error e := by
  induction m with
  | zero => intro c; rw [Nat.zero_add]; rfl
  | succ m ih =>
    intro c
    have : m + 1 + n = (m + n) + 1 := by omega
    rw [this]
    show (match c.executeInstruction with
          | .ok c' => c'.stepN (m + n)
          | .error e => .error e) = _
    cases hc : c.executeInstruction with
    | ok c' => simpa [Computer.stepN, hc] using ih c'
    | error e => simp [Computer.stepN, hc]

theorem stepN_absorb {c c1 : Computer} {n : Nat}
    (h : c.stepN n = .ok c1) (hh : c1.isHalted = true) (k : Nat) :
    c.stepN (n + k) = .ok c1 := by
  rw [stepN_add, h]
  exact stepN_of_isHalted c1 hh k

theorem runsTo_unique {c c1 c2 : Computer}
    (h1 : RunsTo c c1) (h2 : RunsTo c c2) : c1 = c2 := by
  obtain ⟨n1, e1, hh1⟩ := h1
  obtain ⟨n2, e2, hh2⟩ := h2
  rcases Nat.le_total n1 n2 with h | h
  · have := stepN_absorb e1 hh1 (n2 - n1)
    rw [Nat.add_sub_cancel' h, e2] at this
    exact (Except.ok.injEq _ _).mp this.symm
  · have := stepN_absorb e2 hh2 (n1 - n2)
    rw [Nat.add_sub_cancel' h, e1] at this
    exact (Except.ok.injEq _ _).mp this

theorem int_xor_xor_cancel (b l : Int) : Int.xor (Int.xor b l) l = b := by
  cases b <;> cases l <;> simp [Int.xor, Nat.xor_cancel_right]

theorem cppMod_eight_bound (a : Int) : -7 ≤ cppMod a 8 ∧ cppMod a 8 ≤ 7 := by
  have h : a.natAbs % (8 : Int).natAbs < 8 := Nat.mod_lt _ (by norm_num)
  unfold cppMod
  split <;> omega

theorem stepN_succ (c : Computer) (n : Nat) :
    c.stepN (n + 1) =
      match c.executeInstruction with
      | .ok c' => c'.stepN n
      | .error e => .error e := rfl

/-- Output behaviour of one step: the output list is only ever extended,
and any value the step appends is `cppMod _ 8` of something, hence has
magnitude at most 7. -/
theorem executeInstruction_output (c c' : Computer)
    (h : c.executeInstruction = .ok c') :
    ∃ t, c'.output_ = c.output_ ++ t ∧ ∀ v ∈ t, -7 ≤ v ∧ v ≤ 7 := by
  unfold Computer.executeInstruction at h
  simp only [ite_not] at h
  split at h
  · cases h
    exact ⟨[], by simp, by simp⟩
  · split at h
    · repeat' split at h
      all_goals cases h
      all_goals
        first
          | (refine ⟨[], ?_, ?_⟩ <;> simp
             done)
          | exact ⟨_, rfl, fun v hv => by
              rw [List.mem_singleton] at hv
              subst hv
              exact cppMod_eight_bound _⟩
    · cases h

/-- Output behaviour of any number of steps: the initial output is a
prefix of the final one, and every appended value has magnitude at
most 7. -/
theorem stepN_output (n : Nat) : ∀ c c' : Computer, c.stepN n = .ok c' →
    ∃ t, c'.output_ = c.output_ ++ t ∧ ∀ v ∈ t, -7 ≤ v ∧ v ≤ 7 := by
  induction n with
  | zero =>
    intro c c' h
    cases h
    exact ⟨[], by simp, by simp⟩
  | succ n ih =>
    intro c c' h
    rw [stepN_succ] at h
    cases hc : c.executeInstruction with
    | ok c1 =>
      rw [hc] at h
      obtain ⟨t1, ht1, hb1⟩ := executeInstruction_output c c1 hc
      obtain ⟨t2, ht2, hb2⟩ := ih c1 c' h
      refine ⟨t1 ++ t2, by rw [ht2, ht1, List.append_assoc], ?_⟩
      intro v hv
      rcases List.mem_append.mp hv with hv | hv
      exacts [hb1 v hv, hb2 v hv]
    | error e =>
      rw [hc] at h
      cases h

/-! ## The claims -/

/-- C1: for every Program and every initial register triple, `run()` is
deterministic: whenever two runs constructed from the same Program and
the same initial registers terminate (reach a halted configuration),
they terminate in the same configuration — identical final registers
and identical Output Sequence. -/
theorem run_deterministic (p : Program) (A B C : Int) (c1 c2 : Computer)
    (h1 : RunsTo (Computer.init p A B C) c1)
    (h2 : RunsTo (Computer.init p A B C) c2) : c1 = c2 :=
  runsTo_unique h1 h2

theorem run_deterministic_witness :
    (⟨⟨[2, 6]⟩, ⟨0, 1, 9, 2⟩, []⟩ : Computer) = ⟨⟨[2, 6]⟩, ⟨0, 1, 9, 2⟩, []⟩ :=
  run_deterministic ⟨[2, 6]⟩ 0 0 9 _ _
    ⟨1, by decide, by decide⟩ ⟨1, by decide, by decide⟩

/-- C2: in every machine state that is still running (pointer within the
program) but whose pointer has no following operand (pointer + 1 out of
bounds), a single step fails with `TruncatedProgram` — it neither
returns a defaulted configuration nor mutates the state. -/
theorem executeInstruction_truncated (c : Computer)
    (h1 : c.isHalted = false)
    (h2 : c.program_.instructions.length ≤ c.state_.instructionPointer + 1) :
    c.executeInstruction = .error RunError.TruncatedProgram := by
  have hp : c.state_.instructionPointer < c.program_.instructions.length := by
    simp [Computer.isHalted, decide_eq_false_iff_not] at h1
    omega
  simp [Computer.executeInstruction, h1, List.getElem?_eq_getElem hp,
    List.getElem?_eq_none h2]

theorem executeInstruction_truncated_witness :
    (⟨⟨[3]⟩, ⟨0, 0, 0, 0⟩, []⟩ : Computer).isHalted = false ∧
    (⟨⟨[3]⟩, ⟨0, 0, 0, 0⟩, []⟩ : Computer).executeInstruction =
      .error RunError.TruncatedProgram :=
  ⟨by decide, executeInstruction_truncated _ (by decide) (by decide)⟩

/-- C6: with registers A=0, B=0, C=9 and Program [2,6], the run
terminates with B = 1 (combo operand 6 resolves to C = 9 and 9 mod
8 = 1), registers A and C unchanged, an empty Output Sequence and the
pointer at 2. -/
theorem scenario_bst :
    RunsTo (Computer.init ⟨[2, 6]⟩ 0 0 9) ⟨⟨[2, 6]⟩, ⟨0, 1, 9, 2⟩, []⟩ :=
  ⟨1, by decide, by decide⟩

/-- C7: a step from any state whose current opcode is 3 (jump-if-A-
nonzero) with A = 0 and an operand present advances the pointer by
exactly 2 and leaves the registers and the Output Sequence unchanged,
regardless of the operand's value. -/
theorem jnz_zero_advances (c : Computer)
    (hop : c.program_.instructions[c.state_.instructionPointer]? = some 3)
    (hA : c.state_.A = 0)
    (hlen : c.state_.instructionPointer + 1 < c.program_.instructions.length) :
    c.executeInstruction =
      .ok { c with state_ := { c.state_ with
              instructionPointer := c.state_.instructionPointer + 2 } } := by
  have hhalt : c.isHalted = false := by
    simp [Computer.isHalted]
    omega
  simp [Computer.executeInstruction, hhalt, hop,
    List.getElem?_eq_getElem hlen, hA]

theorem jnz_zero_advances_witness :
    (⟨⟨[3, 5]⟩, ⟨0, 7, 8, 0⟩, [9]⟩ : Computer).executeInstruction =
      .ok ⟨⟨[3, 5]⟩, ⟨0, 7, 8, 2⟩, [9]⟩ :=
  jnz_zero_advances _ (by decide) (by decide) (by decide)

/-- C8: executing the xor-literal-B instruction (opcode 1) twice with
the same literal L returns register B to its original value, for every
B and every literal L in [0,7] (and every A, C): the program
[1,L,1,L] runs to completion with all registers restored. -/
theorem bxl_twice_restores_B (a b c L : Int) (_hL : 0 ≤ L ∧ L ≤ 7) :
    (Computer.init ⟨[1, L, 1, L]⟩ a b c).stepN 2 =
      .ok ⟨⟨[1, L, 1, L]⟩, ⟨a, b, c, 4⟩, []⟩ := by
  simp [Computer.stepN, Computer.executeInstruction, Computer.init,
    Computer.isHalted, int_xor_xor_cancel]

theorem bxl_twice_restores_B_witness :
    (Computer.init ⟨[1, 7, 1, 7]⟩ 0 29 0).stepN 2 =
      .ok ⟨⟨[1, 7, 1, 7]⟩, ⟨0, 29, 0, 4⟩, []⟩ :=
  bxl_twice_restores_B 0 29 0 7 ⟨by decide, by decide⟩

/-- C9: on a Program of length 0, every initial register triple is
already halted: the machine halts after zero steps, with an empty
Output Sequence and registers equal to their initial values. -/
theorem empty_program_halts (A B C : Int) :
    (Computer.init ⟨[]⟩ A B C).isHalted = true ∧
    (Computer.init ⟨[]⟩ A B C).stepN 0 = .ok (Computer.init ⟨[]⟩ A B C) ∧
    RunsTo (Computer.init ⟨[]⟩ A B C) (Computer.init ⟨[]⟩ A B C) :=
  ⟨rfl, rfl, 0, rfl, rfl⟩

/-- C10: a single step invoked on an already halted machine (pointer at
or past the program length) is a no-op: it succeeds and returns the
machine unchanged — same registers, pointer and Output Sequence. -/
theorem halted_step_noop (c : Computer) (h : c.isHalted = true) :
    c.executeInstruction = .ok c :=
  executeInstruction_of_isHalted c h

theorem halted_step_noop_witness :
    (⟨⟨[5, 0]⟩, ⟨1, 2, 3, 7⟩, [4]⟩ : Computer).executeInstruction =
      .ok ⟨⟨[5, 0]⟩, ⟨1, 2, 3, 7⟩, [4]⟩ :=
  halted_step_noop _ (by decide)

/-- C4 counterexample: with the signed register A = -9 and Program
[5, 4] (emit the combo-resolved value of A, mod 8), the run terminates
having appended -9 mod 8 = -1 to the Output Sequence — C++ truncating
`%` is negative here, so the appended value does not lie in [0, 7]. -/
theorem out_emits_negative_value :
    RunsTo (Computer.init ⟨[5, 4]⟩ (-9) 0 0) ⟨⟨[5, 4]⟩, ⟨-9, 0, 0, 2⟩, [-1]⟩ ∧
    ¬(0 ≤ (-1 : Int) ∧ (-1 : Int) ≤ 7) :=
  ⟨⟨1, by decide, by decide⟩, by decide⟩

/-- C4 (amended): for every Program and every initial register triple
(negative register values included), the Output Sequence is append-only
— after any number of steps the old output is a prefix of the new — and
every appended value lies in [-7, 7] (the magnitude bound that C++
truncating `%` by 8 guarantees; the value lies in [0, 7] exactly when
the emitted quantity is nonnegative). -/
theorem output_append_only_bounded (n : Nat) (c c' : Computer)
    (h : c.stepN n = .ok c') :
    ∃ t, c'.output_ = c.output_ ++ t ∧ ∀ v ∈ t, -7 ≤ v ∧ v ≤ 7 :=
  stepN_output n c c' h

theorem output_append_only_bounded_witness :
    ∃ t, ([-1] : List Int) = [] ++ t ∧ ∀ v ∈ t, -7 ≤ v ∧ v ≤ 7 :=
  output_append_only_bounded 1 (Computer.init ⟨[5, 4]⟩ (-9) 0 0)
    ⟨⟨[5, 4]⟩, ⟨-9, 0, 0, 2⟩, [-1]⟩ (by decide)

/-! ## Parsing claims -/

/-- Effect of one parsed line on the B register: a line that does not
carry the "Register B:" prefix never writes B. -/
theorem parseLine_B_unchanged (r r' : ParsedInput) (line : Line)
    (hB : ("Register B:".toList).isPrefixOf line = false)
    (h : parseLine r line = some r') : r'.B = r.B := by
  unfold parseLine at h
  split at h
  · obtain ⟨v, _, hv⟩ := Option.map_eq_some'.mp h
    rw [← hv]
  · simp only [hB, Bool.false_eq_true, if_false] at h
    split at h
    · obtain ⟨v, _, hv⟩ := Option.map_eq_some'.mp h
      rw [← hv]
    · split at h
      · split at h
        · cases h
        · obtain ⟨v, _, hv⟩ := Option.map_eq_some'.mp h
          rw [← hv]
      · cases h
        rfl

/-- C3 (amended): an input without a "Register B:" line does not make
parsing fail; `parseInput` simply never writes the B field, which keeps
whatever (in C++ indeterminate) value the result object started with,
and the caller goes on to construct the Interpreter from that partial
result. -/
theorem parse_missing_register_B_keeps_initial (r₀ r' : ParsedInput)
    (input : List Line)
    (hB : ∀ line ∈ input, ("Register B:".toList).isPrefixOf line = false)
    (h : parseInputFrom r₀ input = some r') : r'.B = r₀.B := by
  induction input generalizing r₀ with
  | nil =>
    cases h
    rfl
  | cons l ls ih =>
    rw [parseInputFrom, List.foldlM_cons] at h
    cases hl : parseLine r₀ l with
    | none => rw [hl] at h; cases h
    | some r₁ =>
      rw [hl] at h
      have h' : parseInputFrom r₁ ls = some r' := h
      rw [ih r₁ (fun x hx => hB x (List.mem_cons_of_mem l hx)) h']
      exact parseLine_B_unchanged r₀ r₁ l (hB l (List.mem_cons_self l ls)) hl

theorem parse_missing_register_B_keeps_initial_witness :
    (∀ line ∈ ["Register A: 1".toList, "Register C: 2".toList,
        "Program: 0,1".toList],
      ("Register B:".toList).isPrefixOf line = false) ∧
    (0 : Int) = 0 :=
  ⟨by decide,
   parse_missing_register_B_keeps_initial ⟨0, 0, 0, []⟩ ⟨1, 0, 2, [0, 1]⟩
     ["Register A: 1".toList, "Register C: 2".toList, "Program: 0,1".toList]
     (by decide) (by decide)⟩

/-- C3 counterexample: on a well-formed description lacking the
"Register B:" line, the claim says parsing fails with `MalformedInput`;
in the code `parseInput` succeeds, returning a result whose B field was
simply never assigned (the all-zero start of the model), from which
`runProgram` then constructs a Computer. -/
theorem parse_missing_register_B_succeeds :
    parseInput ["Register A: 1".toList, "Register C: 2".toList,
      "Program: 0,1".toList] = some ⟨1, 0, 2, [0, 1]⟩ := by decide

/-! ## Trailing versus leading whitespace in parsing -/

theorem getlineTokens_cons (sep c : Char) (cs : Line) :
    getlineTokens sep (c :: cs) =
      if c = sep then [] :: getlineTokens sep cs
      else
        match getlineTokens sep cs with
        | [] => [[c]]
        | t :: ts => (c :: t) :: ts := rfl

theorem takeWhile_digits_append_space (s : Line) :
    (s ++ [' ']).takeWhile Char.isDigit = s.takeWhile Char.isDigit := by
  rw [List.takeWhile_append]
  split
  · rename_i hlen
    have h1 : s.takeWhile Char.isDigit = s :=
      List.IsPrefix.eq_of_length (List.takeWhile_prefix _) hlen
    have h2 : List.takeWhile Char.isDigit [' '] = [] := by decide
    rw [h2, List.append_nil, h1]
  · rfl

theorem leadingDigits_append_space (s : Line) :
    leadingDigits (s ++ [' ']) = leadingDigits s := by
  unfold leadingDigits
  rw [takeWhile_digits_append_space]

theorem leadingDigits_cons_append_space (x : Char) (r : Line) :
    leadingDigits (x :: (r ++ [' '])) = leadingDigits (x :: r) := by
  have h := leadingDigits_append_space (x :: r)
  rwa [List.cons_append] at h

theorem stoll_append_space (s : Line) : stoll (s ++ [' ']) = stoll s := by
  unfold stoll
  rw [@List.dropWhile_append Char cppIsSpace s [' ']]
  cases h : s.dropWhile cppIsSpace with
  | nil => rfl
  | cons x rest =>
    simp [leadingDigits_append_space, leadingDigits_cons_append_space]

theorem isPrefixOf_append_space (p l : Line) (hp : p.getLast? ≠ some ' ') :
    p.isPrefixOf (l ++ [' ']) = p.isPrefixOf l := by
  cases hb : p.isPrefixOf l with
  | false =>
    rw [Bool.eq_false_iff]
    intro hcontra
    rcases List.prefix_concat_iff.mp (List.isPrefixOf_iff_prefix.mp hcontra) with heq | hpre
    · refine hp ?_
      rw [heq, List.getLast?_append]
      rfl
    · rw [← List.isPrefixOf_iff_prefix] at hpre
      rw [hpre] at hb
      cases hb
  | true =>
    rw [List.isPrefixOf_iff_prefix]
    exact (List.isPrefixOf_iff_prefix.mp hb).trans (List.prefix_append l [' '])

theorem getLast?_drop_ne_nil (l : Line) (n : Nat) (h : l.drop n ≠ []) :
    (l.drop n).getLast? = l.getLast? := by
  conv_rhs => rw [← List.take_append_drop n l]
  rw [List.getLast?_append]
  cases hd : (l.drop n).getLast? with
  | none => exact absurd (List.getLast?_eq_none_iff.mp hd) h
  | some x => rfl

theorem tokens_append_space : ∀ s : Line, s ≠ [] → s.getLast? ≠ some ',' →
    ∃ ts t, getlineTokens ',' s = ts ++ [t] ∧
      getlineTokens ',' (s ++ [' ']) = ts ++ [t ++ [' ']] := by
  intro s
  induction s with
  | nil => intro h; exact absurd rfl h
  | cons c cs ih =>
    intro _ hlast
    cases cs with
    | nil =>
      have hc : c ≠ ',' := by simpa using hlast
      refine ⟨[], [c], ?_, ?_⟩
      · rw [getlineTokens_cons]
        simp [hc, getlineTokens]
      · rw [List.cons_append, List.nil_append, getlineTokens_cons]
        simp only [hc, if_false]
        rw [getlineTokens_cons]
        simp [getlineTokens]
    | cons d ds =>
      have hlast2 : (d :: ds).getLast? ≠ some ',' := by
        rwa [List.getLast?_cons_cons] at hlast
      obtain ⟨ts, t, h1, h2⟩ := ih (by simp) hlast2
      by_cases hc : c = ','
      · subst hc
        refine ⟨[] :: ts, t, ?_, ?_⟩
        · rw [getlineTokens_cons, if_pos rfl, h1]
          rfl
        · rw [List.cons_append, getlineTokens_cons, if_pos rfl, h2]
          rfl
      · cases ts with
        | nil =>
          rw [List.nil_append] at h1 h2
          refine ⟨[], c :: t, ?_, ?_⟩
          · rw [getlineTokens_cons, if_neg hc, h1]
            rfl
          · rw [List.cons_append, getlineTokens_cons, if_neg hc, h2]
            rfl
        | cons u us =>
          refine ⟨(c :: u) :: us, t, ?_, ?_⟩
          · rw [getlineTokens_cons, if_neg hc, h1]
            rfl
          · rw [List.cons_append, getlineTokens_cons, if_neg hc, h2]
            rfl

/-- Effect of a trailing space on one parsed line: for lines that, if
they are Program lines, have at least one character of content and do
not end in a comma, appending a space does not change the parse. -/
theorem parseLine_append_space (r : ParsedInput) (line : Line)
    (h : ("Program:".toList).isPrefixOf line = true →
      9 < line.length ∧ line.getLast? ≠ some ',') :
    parseLine r (line ++ [' ']) = parseLine r line := by
  unfold parseLine
  rw [isPrefixOf_append_space ("Register A:".toList) line (by decide),
      isPrefixOf_append_space ("Register B:".toList) line (by decide),
      isPrefixOf_append_space ("Register C:".toList) line (by decide),
      isPrefixOf_append_space ("Program:".toList) line (by decide)]
  have hl1 : (line ++ [' ']).length = line.length + 1 := by simp
  split_ifs with hA hB hC hP hq1 hq2 hq3
  · have h11 : (11 : Nat) ≤ line.length :=
      le_trans (by decide) (List.IsPrefix.length_le (List.isPrefixOf_iff_prefix.mp hA))
    rw [List.drop_append_of_le_length h11, stoll_append_space]
  · have h11 : (11 : Nat) ≤ line.length :=
      le_trans (by decide) (List.IsPrefix.length_le (List.isPrefixOf_iff_prefix.mp hB))
    rw [List.drop_append_of_le_length h11, stoll_append_space]
  · have h11 : (11 : Nat) ≤ line.length :=
      le_trans (by decide) (List.IsPrefix.length_le (List.isPrefixOf_iff_prefix.mp hC))
    rw [List.drop_append_of_le_length h11, stoll_append_space]
  · rfl
  · exfalso
    omega
  · exfalso
    obtain ⟨hlen, _⟩ := h hP
    omega
  · obtain ⟨hlen, hlast⟩ := h hP
    rw [List.drop_append_of_le_length (by omega : (9 : Nat) ≤ line.length)]
    have hne : line.drop 9 ≠ [] := by
      intro hh
      have h0 : (line.drop 9).length = 0 := by rw [hh]; rfl
      rw [List.length_drop] at h0
      omega
    have hlast2 : (line.drop 9).getLast? ≠ some ',' := by
      rw [getLast?_drop_ne_nil line 9 hne]
      exact hlast
    obtain ⟨ts, t, ht1, ht2⟩ := tokens_append_space (line.drop 9) hne hlast2
    rw [ht1, ht2, List.foldlM_append, List.foldlM_append]
    simp [stoll_append_space]
  · rfl

/-- Effect of a trailing space on a whole input: appending one space to
every line leaves the parse unchanged, provided every Program line has
content and does not end in a comma. -/
theorem parseInputFrom_map_space (r₀ : ParsedInput) (input : List Line)
    (h : ∀ line ∈ input, ("Program:".toList).isPrefixOf line = true →
      9 < line.length ∧ line.getLast? ≠ some ',') :
    parseInputFrom r₀ (input.map (fun l => l ++ [' '])) = parseInputFrom r₀ input := by
  induction input generalizing r₀ with
  | nil => rfl
  | cons l ls ih =>
    rw [List.map_cons, parseInputFrom, parseInputFrom, List.foldlM_cons, List.foldlM_cons,
        parseLine_append_space r₀ l (h l (List.mem_cons_self l ls))]
    cases hl : parseLine r₀ l with
    | none => rfl
    | some r₁ =>
      show parseInputFrom r₁ (ls.map (fun l => l ++ [' '])) = parseInputFrom r₁ ls
      exact ih r₁ (fun x hx => h x (List.mem_cons_of_mem l hx))

/-- C5 counterexample: two well-formed machine descriptions that differ
only in leading whitespace on the "Register B:" line parse differently —
the line with a leading space fails the `starts_with` test, is silently
ignored, and leaves B unassigned. -/
theorem parse_leading_space_differs :
    parseInput ["Register A: 1".toList, "Register B: 2".toList,
        "Register C: 3".toList, "Program: 0,1".toList] = some ⟨1, 2, 3, [0, 1]⟩ ∧
    parseInput ["Register A: 1".toList, " Register B: 2".toList,
        "Register C: 3".toList, "Program: 0,1".toList] = some ⟨1, 0, 3, [0, 1]⟩ ∧
    (⟨1, 2, 3, [0, 1]⟩ : ParsedInput) ≠ ⟨1, 0, 3, [0, 1]⟩ :=
  ⟨by decide, by decide, by decide⟩

/-- C5 (amended): parsing is insensitive to trailing whitespace on each
line (for descriptions whose Program line has content and does not end
in a comma), but it is sensitive to leading whitespace: a line with
leading whitespace no longer passes the `starts_with` prefix test and
is silently ignored. -/
theorem parse_trailing_space_insensitive (input : List Line)
    (h : ∀ line ∈ input, ("Program:".toList).isPrefixOf line = true →
      9 < line.length ∧ line.getLast? ≠ some ',') :
    parseInput (input.map (fun l => l ++ [' '])) = parseInput input :=
  parseInputFrom_map_space ⟨0, 0, 0, []⟩ input h

theorem parse_trailing_space_insensitive_witness :
    parseInput (["Register A: 1".toList, "Register B: 2".toList,
        "Register C: 3".toList, "Program: 0,1".toList].map (fun l => l ++ [' '])) =
      parseInput ["Register A: 1".toList, "Register B: 2".toList,
        "Register C: 3".toList, "Program: 0,1".toList] :=
  parse_trailing_space_insensitive _ (by decide)

end AoC.Day17
